import Mathlib

/-!
Verification of the Treasury DTS dashboard's enrichment and aggregation
pipeline against its specification.

The pandas data frames of the source are modelled as Lean lists of
structures, one structure field per column.  Missing cells (pandas `NaN` /
`pd.NA`, including empty CSV fields and unparsable dates or amounts) are
modelled as `Option` values; amounts are rational numbers.  Python string
trimming and ordering are modelled by structurally recursive functions on
the underlying character lists so that every definition evaluates inside
the kernel.
-/

/-- Model of Python `str.strip` / pandas `.str.strip()` on the character list. -/
def trimChars (l : List Char) : List Char :=
  ((l.dropWhile Char.isWhitespace).reverse.dropWhile Char.isWhitespace).reverse

/-- Model of Python `str.strip` on strings. -/
def strTrim (s : String) : String := String.mk (trimChars s.data)

/-- Code-point order on characters, as Python compares characters. -/
def charLt (a b : Char) : Bool := a.val < b.val

/-- Lexicographic code-point order on character lists, as Python compares strings. -/
def chLt : List Char → List Char → Bool
  | [], [] => false
  | [], _ :: _ => true
  | _ :: _, [] => false
  | a :: as, b :: bs => charLt a b || (a == b && chLt as bs)

/-- Python `<` on strings. -/
def strLt (a b : String) : Bool := chLt a.data b.data

/-- Insert `r` into `l` in front of the first element that does not
sort strictly before it; used to build a stable sort. -/
def insertBefore (bf : α → α → Bool) (r : α) : List α → List α
  | [] => [r]
  | x :: xs => if bf x r then x :: insertBefore bf r xs else r :: x :: xs

/-- Stable sort by the strict relation `bf`: elements that do not compare
strictly keep their input order. -/
def sortBefore (bf : α → α → Bool) : List α → List α
  | [] => []
  | r :: rs => insertBefore bf r (sortBefore bf rs)

/-- Python `sorted` on a list of strings. -/
def sortStr (l : List String) : List String := sortBefore strLt l

/-- Helper of `dedupFirst`: skip strings seen before, in order. -/
def dedupFirstAux (seen : List String) : List String → List String
  | [] => []
  | x :: xs =>
    if seen.contains x then dedupFirstAux seen xs
    else x :: dedupFirstAux (x :: seen) xs

/-- Keep the first occurrence of every string, in first-occurrence order. -/
def dedupFirst (l : List String) : List String := dedupFirstAux [] l

/-! ## Schema validation (§4.2 of the spec; `load_deposits_withdrawals`
lines 89-99 and `load_category_map` lines 52-65 of `dts_loader.py`) -/

/-- Required columns of the deposits/withdrawals CSV. -/
def txnRequiredCols : List String :=
  ["record_date", "account_type", "transaction_type", "transaction_catg",
   "transaction_catg_desc", "transaction_today_amt"]

/-- Required columns of the category-mapping CSV. -/
def mapRequiredCols : List String :=
  ["transaction_catg", "transaction_catg_desc", "cabinet_supercategory",
   "agency_rollup", "program_rollup"]

/-- Payload of the `ValueError` a loader raises on missing columns:
`missing` is the sorted list of missing required columns the message names,
`found` is the list of present columns the message lists (empty when the
message does not list the present columns). -/
structure SchemaError where
  missing : List String
  found : List String
deriving DecidableEq

/-- `sorted(required - set(columns))`. -/
def missingCols (required cols : List String) : List String :=
  sortStr (required.filter (fun c => !(cols.contains c)))

/-- Schema step of `load_deposits_withdrawals`: raises
`ValueError(f"Deposits/Withdrawals CSV missing columns: {sorted(missing)}")`.
The message names only the missing columns, so `found := []`. -/
def dw_schema_check (cols : List String) : Option SchemaError :=
  let missing := missingCols txnRequiredCols cols
  if missing.isEmpty then none else some ⟨missing, []⟩

/-- Column normalization of `load_category_map`: strip the column names and
rename the legacy `transaction_cetg_desc` column to `transaction_catg_desc`
when the canonical name is absent. -/
def map_cols_normalize (cols : List String) : List String :=
  let cs := cols.map strTrim
  if cs.contains "transaction_cetg_desc" && !(cs.contains "transaction_catg_desc") then
    cs.map (fun c => if c == "transaction_cetg_desc" then "transaction_catg_desc" else c)
  else cs

/-- Schema step of `load_category_map`: raises
`ValueError(f"Mapping file missing columns: {sorted(missing)}. Found: {list(m.columns)}")`,
so the error carries both the missing and the present (normalized) columns. -/
def map_schema_check (cols : List String) : Option SchemaError :=
  let cs := map_cols_normalize cols
  let missing := missingCols mapRequiredCols cs
  if missing.isEmpty then none else some ⟨missing, cs⟩

/-! ## Transaction loader (`load_deposits_withdrawals`, lines 85-119) -/

/-- A row of the raw deposits/withdrawals CSV.  `record_date` is the result
of `pd.to_datetime(..., errors="coerce")` (`none` = unparsable, dates as day
numbers); `transaction_today_amt` is the result of
`pd.to_numeric(..., errors="coerce")` (`none` = non-numeric). -/
structure RawTxn where
  record_date : Option Nat
  account_type : String
  transaction_type : String
  transaction_catg : String
  transaction_catg_desc : String
  transaction_today_amt : Option ℚ
deriving DecidableEq

/-- A cleaned transaction row as the loader returns it. -/
structure Txn where
  record_date : Nat
  account_type : String
  transaction_type : String
  transaction_catg : String
  transaction_catg_desc : String
  transaction_today_amt : ℚ
deriving DecidableEq

/-- The two excluded running-total `account_type` labels (lines 113-116). -/
def tgaSentinels : List String :=
  ["Treasury General Account Total Deposits",
   "Treasury General Account Total Withdrawals"]

/-- Per-row column transforms of the loader: `fillna(0.0)` on the coerced
amount, millions-to-base-units scaling, and trimming of the four string
columns (lines 104-110). -/
def cleanTxnRow (r : RawTxn) : Txn :=
  { record_date := r.record_date.getD 0
    account_type := strTrim r.account_type
    transaction_type := strTrim r.transaction_type
    transaction_catg := strTrim r.transaction_catg
    transaction_catg_desc := strTrim r.transaction_catg_desc
    transaction_today_amt := (r.transaction_today_amt.getD 0) * 1000000 }

/-- `load_deposits_withdrawals` after its schema check: drop unparsable
dates, coerce and scale amounts, trim strings, exclude the TGA running
totals, drop zero amounts (lines 101-119). -/
def load_deposits_withdrawals (tbl : List RawTxn) : List Txn :=
  let withDates := tbl.filter (fun r => r.record_date.isSome)
  let cleaned := withDates.map cleanTxnRow
  let noTotals := cleaned.filter (fun t => !(tgaSentinels.contains t.account_type))
  noTotals.filter (fun t => decide (t.transaction_today_amt ≠ 0))

/-! ## Mapping loader (`load_category_map`, lines 38-82) -/

/-- A row of the category-mapping CSV (read with `dtype=str`): the two
join-key columns and the three rollup columns, rollup cells possibly
missing (`pd.NA`, e.g. empty CSV fields). -/
structure MapRow where
  transaction_catg : String
  transaction_catg_desc : String
  cabinet_supercategory : Option String
  agency_rollup : Option String
  program_rollup : Option String
deriving DecidableEq

/-- Join-key equality of two mapping rows. -/
def mapKeyEq (a b : MapRow) : Bool :=
  a.transaction_catg == b.transaction_catg &&
    a.transaction_catg_desc == b.transaction_catg_desc

/-- The `.str.strip()` normalization of join keys and rollups (lines 67-73);
stripping maps over present cells and keeps `NA` cells `NA`. -/
def trimMapRow (m : MapRow) : MapRow :=
  { transaction_catg := strTrim m.transaction_catg
    transaction_catg_desc := strTrim m.transaction_catg_desc
    cabinet_supercategory := m.cabinet_supercategory.map strTrim
    agency_rollup := m.agency_rollup.map strTrim
    program_rollup := m.program_rollup.map strTrim }

/-- The trimming pass of `load_category_map`. -/
def map_trim (tbl : List MapRow) : List MapRow := tbl.map trimMapRow

/-- `drop_duplicates(subset=["transaction_catg","transaction_catg_desc"],
keep="first")`: keep the first row of every join key, in order (line 80). -/
def dropDuplicatesFirst : List MapRow → List MapRow
  | [] => []
  | r :: rs => r :: dropDuplicatesFirst (rs.filter (fun s => !(mapKeyEq s r)))
termination_by l => l.length
decreasing_by
  simp only [List.length_cons]
  exact Nat.lt_succ_of_le (List.length_filter_le _ _)

/-- `load_category_map` after its schema check: trim, then deduplicate on
the join key keeping the first occurrence. -/
def load_category_map (tbl : List MapRow) : List MapRow :=
  dropDuplicatesFirst (map_trim tbl)

/-! ## Enricher (`enrich_with_rollups`, lines 122-144) -/

/-- Does mapping row `m` match the join key of transaction `t`? -/
def txnKeyMatch (t : Txn) (m : MapRow) : Bool :=
  m.transaction_catg == t.transaction_catg &&
    m.transaction_catg_desc == t.transaction_catg_desc

/-- An output row of the left merge before `fillna`: rollups are still
nullable (`none` both for a non-match and for a matched `NA` cell). -/
structure EnrichedOpt where
  record_date : Nat
  account_type : String
  transaction_type : String
  transaction_catg : String
  transaction_catg_desc : String
  transaction_today_amt : ℚ
  cabinet_supercategory : Option String
  agency_rollup : Option String
  program_rollup : Option String
deriving DecidableEq

/-- A fully enriched row after `fillna("Unmapped")`. -/
structure Enriched where
  record_date : Nat
  account_type : String
  transaction_type : String
  transaction_catg : String
  transaction_catg_desc : String
  transaction_today_amt : ℚ
  cabinet_supercategory : String
  agency_rollup : String
  program_rollup : String
deriving DecidableEq

/-- One merged row: the transaction columns plus the rollup cells of the
matched mapping row (`none` mapping row = no match). -/
def mergeRow (t : Txn) (m : Option MapRow) : EnrichedOpt :=
  { record_date := t.record_date
    account_type := t.account_type
    transaction_type := t.transaction_type
    transaction_catg := t.transaction_catg
    transaction_catg_desc := t.transaction_catg_desc
    transaction_today_amt := t.transaction_today_amt
    cabinet_supercategory := m.bind (·.cabinet_supercategory)
    agency_rollup := m.bind (·.agency_rollup)
    program_rollup := m.bind (·.program_rollup) }

/-- pandas `df.merge(mapping[...], on=[keys], how="left")`: left row order
is kept; a left row with k matching mapping rows produces k output rows in
right-table order, and a left row with no match produces one output row
with null rollups. -/
def merge_left (df : List Txn) (mapping : List MapRow) : List EnrichedOpt :=
  df.flatMap (fun t =>
    match mapping.filter (txnKeyMatch t) with
    | [] => [mergeRow t none]
    | ms => ms.map (fun m => mergeRow t (some m)))

/-- The three `fillna("Unmapped")` lines (140-142). -/
def fillUnmapped (e : EnrichedOpt) : Enriched :=
  { record_date := e.record_date
    account_type := e.account_type
    transaction_type := e.transaction_type
    transaction_catg := e.transaction_catg
    transaction_catg_desc := e.transaction_catg_desc
    transaction_today_amt := e.transaction_today_amt
    cabinet_supercategory := e.cabinet_supercategory.getD "Unmapped"
    agency_rollup := e.agency_rollup.getD "Unmapped"
    program_rollup := e.program_rollup.getD "Unmapped" }

/-- `enrich_with_rollups`: left merge, then fill the rollup nulls. -/
def enrich_with_rollups (df : List Txn) (mapping : List MapRow) : List Enriched :=
  (merge_left df mapping).map fillUnmapped

/-! ## Rank-and-Bucket (`2_Drilldown.py`, lines 109-130) -/

/-- A row of the per-(agency, program) sum table `prog`. -/
structure ProgRow where
  agency_rollup : String
  program_rollup : String
  amt : ℚ
deriving DecidableEq

/-- Label of the synthetic bucket row (line 126). -/
def otherLabel : String := "Other (all remaining programs)"

/-- Strict "sorts earlier" relation of
`prog.sort_values(["agency_rollup", "amt"], ascending=[True, False])`. -/
def progBefore (x r : ProgRow) : Bool :=
  strLt x.agency_rollup r.agency_rollup ||
    (x.agency_rollup == r.agency_rollup && decide (r.amt < x.amt))

/-- The sort of line 116, modelled as a stable sort by
(agency ascending, amt descending). -/
def sortProg (l : List ProgRow) : List ProgRow := sortBefore progBefore l

/-- Enumerate a list with positions starting at `n`. -/
def enumF : Nat → List α → List (Nat × α)
  | _, [] => []
  | n, x :: xs => (n, x) :: enumF (n + 1) xs

/-- `q` outranks `p`: same agency and either a strictly larger amount, or an
equal amount and an earlier position. -/
def beats (p q : Nat × ProgRow) : Bool :=
  q.2.agency_rollup == p.2.agency_rollup &&
    (decide (p.2.amt < q.2.amt) || (decide (q.2.amt = p.2.amt) && decide (q.1 < p.1)))

/-- `prog.groupby("agency_rollup")["amt"].rank(method="first", ascending=False)`
(line 117): the rank of a row is one plus the number of rows of its agency
that outrank it. -/
def withRanks (l : List ProgRow) : List (ProgRow × Nat) :=
  (enumF 0 l).map (fun p => (p.2, 1 + (enumF 0 l).countP (beats p)))

/-- `other_prog.groupby("agency_rollup", as_index=False)["amt"].sum()` with
`program_rollup` assigned the bucket label (lines 123-127). -/
def otherGroup (l : List ProgRow) : List ProgRow :=
  (dedupFirst (l.map (·.agency_rollup))).map (fun a =>
    ⟨a, otherLabel, ((l.filter (fun r => r.agency_rollup == a)).map (·.amt)).sum⟩)

/-- The whole Rank-and-Bucket step producing `prog2` (lines 116-130). -/
def bucketTopN (n : Nat) (progIn : List ProgRow) : List ProgRow :=
  let prog := sortProg progIn
  let ranked := withRanks prog
  let topProg := (ranked.filter (fun p => p.2 ≤ n)).map (·.1)
  let otherProg := (ranked.filter (fun p => n < p.2)).map (·.1)
  if otherProg.isEmpty then topProg else topProg ++ otherGroup otherProg

/-- All rows of one parent (agency or cabinet), in order. -/
def byAgency (a : String) (l : List ProgRow) : List ProgRow :=
  l.filter (fun r => r.agency_rollup == a)

/-! ## Two-level flow graph (`1_Flows.py`, lines 108-135) -/

/-- The node-label / edge-index / value output handed to the renderer. -/
structure FlowGraph where
  nodes : List String
  sources : List Nat
  targets : List Nat
  values : List ℚ
deriving DecidableEq

/-- The single sink node label (line 122). -/
def tgaNode : String := "Treasury General Account (TGA)"

/-- Position of the last occurrence of `s`, if present. -/
def lastIdxAux (s : String) : List String → Option Nat
  | [] => none
  | x :: xs =>
    match lastIdxAux s xs with
    | some i => some (i + 1)
    | none => if x == s then some 0 else none

/-- `node_index = {label: i for i, label in enumerate(nodes)}` (line 125):
in a Python dict comprehension the last occurrence of a repeated label wins. -/
def nodeIndexOf (nodes : List String) (s : String) : Nat :=
  (lastIdxAux s nodes).getD nodes.length

/-- The two-level (cabinet gross flow) graph: prefixed deposit-cabinet
nodes, the sink, prefixed withdrawal-cabinet nodes, with deposit→sink and
sink→withdrawal edges (lines 108-135).  `dep` and `wdr` are the rows of the
two per-cabinet aggregations. -/
def buildTwoLevel (dep wdr : List (String × ℚ)) : FlowGraph :=
  let depNodes := dep.map (fun p => "Deposits: " ++ p.1)
  let wdrNodes := wdr.map (fun p => "Withdrawals: " ++ p.1)
  let nodes := depNodes ++ [tgaNode] ++ wdrNodes
  { nodes := nodes
    sources := depNodes.map (nodeIndexOf nodes) ++
      List.replicate wdr.length (nodeIndexOf nodes tgaNode)
    targets := List.replicate dep.length (nodeIndexOf nodes tgaNode) ++
      wdrNodes.map (nodeIndexOf nodes)
    values := dep.map (·.2) ++ wdr.map (·.2) }

/-- Claim-side node list of the two-level graph, following the words of the
spec: a deposit node only for each cabinet with deposit sum `> 0`.  Stated
for comparison with `buildTwoLevel`, which keeps every deposit cabinet. -/
def claimNodesTwoLevel (dep wdr : List (String × ℚ)) : List String :=
  (dep.filter (fun p => decide (0 < p.2))).map (fun p => "Deposits: " ++ p.1) ++
    [tgaNode] ++ wdr.map (fun p => "Withdrawals: " ++ p.1)

/-! ## Drilldown selection and empty-state handling (`2_Drilldown.py`,
lines 60-90, and `1_Flows.py`, which has no empty check) -/

/-- Empty-selection failure (`st.error` / `st.warning` followed by `st.stop()`). -/
inductive GraphError where
  | emptyGraph
deriving DecidableEq

def exceptIsOk : Except ε α → Bool
  | .ok _ => true
  | .error _ => false

/-- The date-range mask and the "Show unmapped" filter (lines 60-64). -/
def applySelection (df : List Enriched) (startD endD : Nat) (showUnmapped : Bool) :
    List Enriched :=
  let dff := df.filter (fun r => decide (startD ≤ r.record_date) && decide (r.record_date ≤ endD))
  if showUnmapped then dff else dff.filter (fun r => r.cabinet_supercategory != "Unmapped")

/-- The two drilldown stop conditions: no cabinet options at all (lines
67-70), or no rows for the chosen cabinet and transaction type (lines
86-90); otherwise the selected rows are handed to the Sankey build. -/
def drilldown_select (dff : List Enriched) (cabinet txnType : String) :
    Except GraphError (List Enriched) :=
  let cabOptions := sortStr (dedupFirst (dff.map (·.cabinet_supercategory)))
  if cabOptions.isEmpty then .error .emptyGraph
  else
    let x := dff.filter (fun r =>
      r.cabinet_supercategory == cabinet && r.transaction_type == txnType)
    if x.isEmpty then .error .emptyGraph else .ok x

/-! ## General lemmas about the list and string helpers -/

theorem string_beq_comm (a b : String) : (a == b) = (b == a) := by
  by_cases h : a = b
  · subst h; rfl
  · have h2 : ¬ b = a := fun e => h e.symm
    simp [beq_eq_false_iff_ne.mpr h, beq_eq_false_iff_ne.mpr h2]

theorem mem_insertBefore {α : Type} (bf : α → α → Bool) (r : α) (l : List α) (a : α) :
    a ∈ insertBefore bf r l ↔ a = r ∨ a ∈ l := by
  induction l with
  | nil => simp [insertBefore]
  | cons x xs ih =>
    rw [insertBefore]
    by_cases h : bf x r = true
    · simp only [h, if_true, List.mem_cons, ih]
      tauto
    · simp only [h, if_false, Bool.false_eq_true, List.mem_cons]

theorem length_insertBefore {α : Type} (bf : α → α → Bool) (r : α) (l : List α) :
    (insertBefore bf r l).length = l.length + 1 := by
  induction l with
  | nil => rfl
  | cons x xs ih =>
    rw [insertBefore]
    by_cases h : bf x r = true
    · simp [h, ih]
    · simp [h]

theorem mem_sortBefore {α : Type} (bf : α → α → Bool) (l : List α) (a : α) :
    a ∈ sortBefore bf l ↔ a ∈ l := by
  induction l with
  | nil => simp [sortBefore]
  | cons x xs ih =>
    rw [sortBefore]
    rw [mem_insertBefore, ih, List.mem_cons]

theorem length_sortBefore {α : Type} (bf : α → α → Bool) (l : List α) :
    (sortBefore bf l).length = l.length := by
  induction l with
  | nil => rfl
  | cons x xs ih => rw [sortBefore, length_insertBefore, ih, List.length_cons]

theorem mem_sortStr (l : List String) (a : String) : a ∈ sortStr l ↔ a ∈ l :=
  mem_sortBefore strLt l a

theorem sortStr_eq_nil_iff (l : List String) : sortStr l = [] ↔ l = [] := by
  constructor
  · intro h
    have := length_sortBefore strLt l
    rw [sortStr] at h
    rw [h] at this
    exact List.length_eq_zero.mp this.symm
  · intro h; subst h; rfl

theorem contains_iff_memS (l : List String) (a : String) :
    l.contains a = true ↔ a ∈ l := List.elem_iff

theorem dedupFirst_cons (x : String) (xs : List String) :
    dedupFirst (x :: xs) = x :: dedupFirstAux [x] xs := by
  simp [dedupFirst, dedupFirstAux]

theorem dedupFirstAux_filter_self (a : String) :
    ∀ (l seen : List String),
    (dedupFirstAux seen l).filter (fun y => y == a) =
      if !(seen.contains a) && l.contains a then [a] else []
  | [], seen => by simp [dedupFirstAux]
  | x :: xs, seen => by
    rw [dedupFirstAux]
    by_cases hs : seen.contains x = true
    · rw [if_pos hs, dedupFirstAux_filter_self a xs seen]
      have hcond : (!(seen.contains a) && (x :: xs).contains a) =
          (!(seen.contains a) && xs.contains a) := by
        rw [List.contains_cons]
        by_cases hax : (a == x) = true
        · have hsa : seen.contains a = true := by rw [eq_of_beq hax]; exact hs
          rw [hsa]
          rfl
        · have haxf : (a == x) = false := by
            cases hv : (a == x)
            · rfl
            · exact absurd hv hax
          rw [haxf, Bool.false_or]
      rw [hcond]
    · rw [if_neg hs, List.filter_cons, dedupFirstAux_filter_self a xs (x :: seen)]
      by_cases hax : (x == a) = true
      · have hxa : x = a := eq_of_beq hax
        subst hxa
        have h1 : ((x :: seen).contains x) = true := by
          rw [List.contains_cons, beq_self_eq_true, Bool.true_or]
        have hsf : seen.contains x = false := by
          cases hv : seen.contains x
          · rfl
          · exact absurd hv hs
        have h2 : ((x :: xs).contains x) = true := by
          rw [List.contains_cons, beq_self_eq_true, Bool.true_or]
        rw [h1, h2, hsf]
        simp
      · have haxf : (x == a) = false := by
          cases hv : (x == a)
          · rfl
          · exact absurd hv hax
        have haxf2 : (a == x) = false := by rw [string_beq_comm]; exact haxf
        rw [haxf]
        have hc1 : ((x :: seen).contains a) = seen.contains a := by
          rw [List.contains_cons, haxf2, Bool.false_or]
        have hc2 : ((x :: xs).contains a) = xs.contains a := by
          rw [List.contains_cons, haxf2, Bool.false_or]
        rw [hc1, hc2]
        simp

theorem dedupFirst_filter_self (l : List String) (a : String) :
    (dedupFirst l).filter (fun y => y == a) =
      if l.contains a then [a] else [] := by
  rw [dedupFirst, dedupFirstAux_filter_self a l []]
  rfl

section RatComputable

attribute [local semireducible] Rat.mul Rat.add Rat.sub Rat.inv Rat.ofScientific

/-! ## C3: exclusion of the TGA running-total rows -/

/-- C3 (amended): for every input table, the transaction loader's output
contains no row whose `account_type` equals either of the two sentinel
labels actually used by the code, "Treasury General Account Total Deposits"
and "Treasury General Account Total Withdrawals", regardless of amount. -/
theorem C3_loader_excludes_tga_totals (tbl : List RawTxn) :
    (load_deposits_withdrawals tbl).filter (fun t =>
      t.account_type == "Treasury General Account Total Deposits" ||
        t.account_type == "Treasury General Account Total Withdrawals") = [] := by
  rw [List.filter_eq_nil_iff]
  intro t ht
  simp only [load_deposits_withdrawals] at ht
  have h1 := (List.mem_filter.mp ht).1
  have hp := (List.mem_filter.mp h1).2
  rw [Bool.not_eq_eq_eq_not, Bool.not_true] at hp
  simp only [tgaSentinels, List.contains_cons, List.contains_nil, Bool.or_eq_false_iff] at hp
  simp [hp.1, hp.2.1]

/-- C3 counterexample: a row whose `account_type` is the claim's literal
string "TGA Total Deposits" is not excluded: it survives the loader, so the
claim's quoted sentinel labels are not the ones the code filters on. -/
theorem C3_counterexample :
    (load_deposits_withdrawals
        [{ record_date := some 3, account_type := "TGA Total Deposits",
           transaction_type := "Deposits", transaction_catg := "c",
           transaction_catg_desc := "d", transaction_today_amt := some 5 }]).map
      (fun t => t.account_type) = ["TGA Total Deposits"] := by decide

/-! ## C4: unit conversion, zero-coercion and zero-row dropping -/

/-- C4: every output amount is some input row's raw value (0 when
non-numeric) times 1,000,000, in input order (the output amounts are a
sublist of the converted input amounts); no output amount equals 0; a raw
12.5 yields 12,500,000; a raw 0.0001 is retained. -/
theorem C4_amount_conversion (tbl : List RawTxn) :
    List.Sublist ((load_deposits_withdrawals tbl).map (fun t => t.transaction_today_amt))
        (tbl.map (fun r => (r.transaction_today_amt.getD 0) * 1000000)) ∧
    (load_deposits_withdrawals tbl).all
        (fun t => decide (t.transaction_today_amt ≠ 0)) = true ∧
    (load_deposits_withdrawals
        [{ record_date := some 3, account_type := "x", transaction_type := "Deposits",
           transaction_catg := "c", transaction_catg_desc := "d",
           transaction_today_amt := some 12.5 }]).map (fun t => t.transaction_today_amt) =
      [12500000] ∧
    (load_deposits_withdrawals
        [{ record_date := some 3, account_type := "x", transaction_type := "Deposits",
           transaction_catg := "c", transaction_catg_desc := "d",
           transaction_today_amt := some 0.0001 }]).length = 1 := by
  refine ⟨?_, ?_, by decide, by decide⟩
  · simp only [load_deposits_withdrawals]
    have h1 : List.Sublist
        ((((tbl.filter (fun r => r.record_date.isSome)).map cleanTxnRow).filter
            (fun t => !(tgaSentinels.contains t.account_type))).filter
          (fun t => decide (t.transaction_today_amt ≠ 0)))
        ((tbl.filter (fun r => r.record_date.isSome)).map cleanTxnRow) :=
      (List.filter_sublist _).trans (List.filter_sublist _)
    have h2 := h1.map (fun t => t.transaction_today_amt)
    rw [List.map_map] at h2
    have h3 : ((tbl.filter (fun r => r.record_date.isSome)).map
        ((fun t => t.transaction_today_amt) ∘ cleanTxnRow)) =
        (tbl.filter (fun r => r.record_date.isSome)).map
          (fun r => (r.transaction_today_amt.getD 0) * 1000000) := rfl
    rw [h3] at h2
    exact h2.trans ((List.filter_sublist tbl).map _)
  · rw [List.all_eq_true]
    intro t ht
    simp only [load_deposits_withdrawals] at ht
    exact (List.mem_filter.mp ht).2

/-! ## C5: two-level flow graph shape -/

theorem lastIdxAux_lt_length (s : String) (l : List String) (i : Nat)
    (h : lastIdxAux s l = some i) : i < l.length := by
  induction l generalizing i with
  | nil => simp [lastIdxAux] at h
  | cons x xs ih =>
    rw [lastIdxAux] at h
    cases hx : lastIdxAux s xs with
    | some j =>
      rw [hx] at h
      cases h
      exact Nat.succ_lt_succ (ih j hx)
    | none =>
      rw [hx] at h
      by_cases he : (x == s) = true
      · simp [he] at h
        subst h
        exact Nat.succ_pos _
      · simp [he] at h

theorem lastIdxAux_isSome_of_mem (s : String) (l : List String) (h : s ∈ l) :
    (lastIdxAux s l).isSome = true := by
  induction l with
  | nil => simp at h
  | cons x xs ih =>
    rw [lastIdxAux]
    cases hx : lastIdxAux s xs with
    | some j => simp
    | none =>
      rcases List.mem_cons.mp h with h1 | h2
      · subst h1
        simp
      · have := ih h2
        rw [hx] at this
        simp at this

theorem nodeIndexOf_lt_of_mem (nodes : List String) (s : String) (h : s ∈ nodes) :
    nodeIndexOf nodes s < nodes.length := by
  rw [nodeIndexOf]
  cases hx : lastIdxAux s nodes with
  | some i => exact lastIdxAux_lt_length s nodes i hx
  | none =>
    have := lastIdxAux_isSome_of_mem s nodes h
    rw [hx] at this
    simp at this

/-- C5 (amended): the two-level graph's node list is exactly the
"Deposits: "-prefixed node of every cabinet present in the deposit
aggregation (regardless of the sign of its sum), then the single TGA sink,
then the "Withdrawals: "-prefixed nodes; its length is
`#deposit cabinets + 1 + #withdrawal cabinets`; and every edge endpoint
index is a valid position in the node list. -/
theorem C5_two_level_graph_shape (dep wdr : List (String × ℚ)) :
    (buildTwoLevel dep wdr).nodes =
        dep.map (fun p => "Deposits: " ++ p.1) ++ [tgaNode] ++
          wdr.map (fun p => "Withdrawals: " ++ p.1) ∧
    (buildTwoLevel dep wdr).nodes.length = dep.length + 1 + wdr.length ∧
    ((buildTwoLevel dep wdr).sources ++ (buildTwoLevel dep wdr).targets).all
        (fun i => decide (i < (buildTwoLevel dep wdr).nodes.length)) = true := by
  refine ⟨rfl, ?_, ?_⟩
  · simp [buildTwoLevel]
    omega
  · rw [List.all_eq_true]
    intro i hi
    rw [decide_eq_true_eq]
    simp only [buildTwoLevel] at hi ⊢
    have htga : tgaNode ∈ dep.map (fun p => "Deposits: " ++ p.1) ++ [tgaNode] ++
        wdr.map (fun p => "Withdrawals: " ++ p.1) := by
      simp
    rcases List.mem_append.mp hi with hsrc | htgt
    · rcases List.mem_append.mp hsrc with hdep | hrep
      · rcases List.mem_map.mp hdep with ⟨s, hs, rfl⟩
        exact nodeIndexOf_lt_of_mem _ s
          (List.mem_append.mpr (Or.inl (List.mem_append.mpr (Or.inl hs))))
      · rw [List.eq_of_mem_replicate hrep]
        exact nodeIndexOf_lt_of_mem _ _ htga
    · rcases List.mem_append.mp htgt with hrep | hwdr
      · rw [List.eq_of_mem_replicate hrep]
        exact nodeIndexOf_lt_of_mem _ _ htga
      · rcases List.mem_map.mp hwdr with ⟨s, hs, rfl⟩
        exact nodeIndexOf_lt_of_mem _ s (List.mem_append.mpr (Or.inr hs))

/-- C5 counterexample: for a deposit aggregation holding one cabinet "A"
with sum -5 (not > 0), the code's node list still contains "Deposits: A",
while the claim's node list (deposit nodes only for sums > 0) does not. -/
theorem C5_counterexample :
    (buildTwoLevel [("A", -5)] []).nodes ≠ claimNodesTwoLevel [("A", -5)] [] := by decide

/-! ## C9: empty-selection handling -/

/-- C9 (amended): the three-level drilldown page stops with an
empty-selection error exactly when zero rows remain for the chosen date
range, unmapped flag, cabinet and transaction type. -/
theorem C9_drilldown_empty_check (df : List Enriched) (startD endD : Nat)
    (showUnmapped : Bool) (cabinet txnType : String) :
    exceptIsOk (drilldown_select (applySelection df startD endD showUnmapped) cabinet txnType) =
      !((applySelection df startD endD showUnmapped).filter (fun r =>
          r.cabinet_supercategory == cabinet && r.transaction_type == txnType)).isEmpty := by
  set dff := applySelection df startD endD showUnmapped with hdff
  simp only [drilldown_select]
  by_cases hcab : (sortStr (dedupFirst (dff.map (fun r => r.cabinet_supercategory)))).isEmpty = true
  · have hnil : dff = [] := by
      rcases hd : dff with _ | ⟨r, rs⟩
      · rfl
      · rw [hd] at hcab
        rw [List.map_cons, dedupFirst_cons] at hcab
        rw [List.isEmpty_iff, sortStr_eq_nil_iff] at hcab
        simp at hcab
    rw [hnil]
    simp [exceptIsOk]
  · rw [if_neg (by simpa using hcab)]
    by_cases hx : (dff.filter (fun r =>
        r.cabinet_supercategory == cabinet && r.transaction_type == txnType)).isEmpty = true
    · rw [if_pos hx, hx]
      rfl
    · rw [if_neg hx]
      simp only [exceptIsOk]
      simp only [Bool.not_eq_true] at hx
      rw [hx]
      rfl

/-- C9 counterexample: on an empty selection (no deposit and no withdrawal
aggregation rows) the two-level builder does not fail: it returns a graph
with the single sink node and no edges, which the page renders. -/
theorem C9_counterexample :
    buildTwoLevel [] [] =
      { nodes := [tgaNode], sources := [], targets := [], values := [] } := by decide

/-! ## C8: schema validation -/

theorem filterNot_isEmpty_eq_all (l : List String) (p : String → Bool) :
    (l.filter (fun x => !(p x))).isEmpty = l.all p := by
  induction l with
  | nil => rfl
  | cons x xs ih =>
    rw [List.filter_cons, List.all_cons]
    cases hp : p x
    · simp
    · simpa using ih

theorem sortStr_isEmpty (l : List String) : (sortStr l).isEmpty = l.isEmpty := by
  rw [Bool.eq_iff_iff, List.isEmpty_iff, List.isEmpty_iff, sortStr_eq_nil_iff]

theorem missingCols_isEmpty (req cols : List String) :
    (missingCols req cols).isEmpty = req.all (fun r => cols.contains r) := by
  rw [missingCols, sortStr_isEmpty, filterNot_isEmpty_eq_all]

theorem missingCols_contains (req cols : List String) (c : String) :
    (missingCols req cols).contains c = (req.contains c && !(cols.contains c)) := by
  rw [Bool.eq_iff_iff, contains_iff_memS, missingCols, mem_sortStr]
  constructor
  · intro h
    have h1 := List.mem_of_mem_filter h
    have h2 := List.of_mem_filter h
    rw [Bool.and_eq_true]
    exact ⟨(contains_iff_memS _ _).mpr h1, h2⟩
  · intro h
    rw [Bool.and_eq_true] at h
    exact List.mem_filter.mpr ⟨(contains_iff_memS _ _).mp h.1, h.2⟩

/-- C8 (amended): for each loader, schema validation fails exactly when
some required column is absent, and the error names exactly the missing
columns (membership in its `missing` list coincides with being required
but absent).  The mapping loader's error also lists all columns actually
present; the transaction loader's error lists none of the present columns
(its `found` payload is always empty). -/
theorem C8_schema_validation (cols : List String) (c : String) :
    ((dw_schema_check cols).isSome =
        !(txnRequiredCols.all (fun r => cols.contains r))) ∧
    ((map_schema_check cols).isSome =
        !(mapRequiredCols.all (fun r => (map_cols_normalize cols).contains r))) ∧
    (((dw_schema_check cols).getD ⟨[], []⟩).missing.contains c =
        (txnRequiredCols.contains c && !(cols.contains c))) ∧
    (((dw_schema_check cols).getD ⟨[], []⟩).found = []) ∧
    (((map_schema_check cols).getD ⟨[], map_cols_normalize cols⟩).missing.contains c =
        (mapRequiredCols.contains c && !((map_cols_normalize cols).contains c))) ∧
    (((map_schema_check cols).getD ⟨[], map_cols_normalize cols⟩).found =
        map_cols_normalize cols) := by
  refine ⟨?_, ?_, ?_, ?_, ?_, ?_⟩
  · simp only [dw_schema_check]
    rw [← missingCols_isEmpty]
    cases h : (missingCols txnRequiredCols cols).isEmpty <;> simp [h]
  · simp only [map_schema_check]
    rw [← missingCols_isEmpty]
    cases h : (missingCols mapRequiredCols (map_cols_normalize cols)).isEmpty <;> simp [h]
  · simp only [dw_schema_check]
    cases h : (missingCols txnRequiredCols cols).isEmpty
    · simp only [h, Bool.false_eq_true, if_false, Option.getD_some]
      exact missingCols_contains txnRequiredCols cols c
    · simp only [h, if_true, Option.getD_none]
      have hall : txnRequiredCols.all (fun r => cols.contains r) = true := by
        rw [← missingCols_isEmpty]; exact h
      by_cases hc : txnRequiredCols.contains c = true
      · have hcc : cols.contains c = true :=
          List.all_eq_true.mp hall c ((contains_iff_memS _ _).mp hc)
        simp only [hc, hcc]
        rfl
      · rw [Bool.not_eq_true] at hc
        simp only [hc]
        rfl
  · simp only [dw_schema_check]
    cases h : (missingCols txnRequiredCols cols).isEmpty <;> simp [h]
  · simp only [map_schema_check]
    cases h : (missingCols mapRequiredCols (map_cols_normalize cols)).isEmpty
    · simp only [h, Bool.false_eq_true, if_false, Option.getD_some]
      exact missingCols_contains mapRequiredCols (map_cols_normalize cols) c
    · simp only [h, if_true, Option.getD_none]
      have hall : mapRequiredCols.all (fun r => (map_cols_normalize cols).contains r) = true := by
        rw [← missingCols_isEmpty]; exact h
      by_cases hc : mapRequiredCols.contains c = true
      · have hcc : (map_cols_normalize cols).contains c = true :=
          List.all_eq_true.mp hall c ((contains_iff_memS _ _).mp hc)
        simp only [hc, hcc]
        rfl
      · rw [Bool.not_eq_true] at hc
        simp only [hc]
        rfl
  · simp only [map_schema_check]
    cases h : (missingCols mapRequiredCols (map_cols_normalize cols)).isEmpty <;> simp [h]

/-- C8 counterexample: a transactions table presenting five of the six
required columns (only `record_date` is missing) fails with an error that
names the missing column but lists none of the five present columns, so
the claim's "lists all columns actually present" does not hold for the
transaction loader. -/
theorem C8_counterexample :
    dw_schema_check ["account_type", "transaction_type", "transaction_catg",
        "transaction_catg_desc", "transaction_today_amt"] =
      some ⟨["record_date"], []⟩ ∧
    (["account_type", "transaction_type", "transaction_catg",
        "transaction_catg_desc", "transaction_today_amt"] : List String) ≠ [] := by
  refine ⟨by decide, by decide⟩

/-! ## C7: mapping-loader deduplication -/

theorem mem_of_mem_dropDuplicatesFirst {l : List MapRow} {a : MapRow}
    (h : a ∈ dropDuplicatesFirst l) : a ∈ l := by
  induction l using dropDuplicatesFirst.induct with
  | case1 => simpa [dropDuplicatesFirst] using h
  | case2 r rs ih =>
    rw [dropDuplicatesFirst] at h
    rcases List.mem_cons.mp h with h1 | h2
    · simp [h1]
    · exact List.mem_cons_of_mem r (List.mem_of_mem_filter (ih h2))

theorem mapKeyEq_symm (a b : MapRow) : mapKeyEq a b = mapKeyEq b a := by
  rw [mapKeyEq, mapKeyEq, string_beq_comm a.transaction_catg,
    string_beq_comm a.transaction_catg_desc]

theorem dropDuplicatesFirst_pairwise (l : List MapRow) :
    List.Pairwise (fun a b => mapKeyEq a b = false) (dropDuplicatesFirst l) := by
  induction l using dropDuplicatesFirst.induct with
  | case1 => simp [dropDuplicatesFirst]
  | case2 r rs ih =>
    rw [dropDuplicatesFirst]
    refine List.pairwise_cons.mpr ⟨?_, ih⟩
    intro s hs
    have hsf := mem_of_mem_dropDuplicatesFirst hs
    have hk := List.of_mem_filter hsf
    have hk2 : mapKeyEq s r = false := by simpa using hk
    rw [mapKeyEq_symm r s]
    exact hk2

theorem find?_filter_of_imp {α : Type} (l : List α) (p q : α → Bool)
    (h : ∀ x, p x = true → q x = true) :
    (l.filter q).find? p = l.find? p := by
  induction l with
  | nil => rfl
  | cons x xs ih =>
    rw [List.filter_cons]
    cases hq : q x
    · have hp : p x = false := by
        cases hpx : p x
        · rfl
        · exact absurd (h x hpx) (by simp [hq])
      simp only [Bool.false_eq_true, if_false]
      rw [ih, List.find?_cons_of_neg xs (by simp [hp])]
    · simp only [if_true]
      cases hp : p x
      · rw [List.find?_cons_of_neg (xs.filter q) (by simp [hp]),
          List.find?_cons_of_neg xs (by simp [hp])]
        exact ih
      · rw [List.find?_cons_of_pos (xs.filter q) hp, List.find?_cons_of_pos xs hp]

theorem dropDuplicatesFirst_find? (l : List MapRow) (p : MapRow → Bool)
    (hp : ∀ a b, mapKeyEq a b = true → p a = p b) :
    (dropDuplicatesFirst l).find? p = l.find? p := by
  induction l using dropDuplicatesFirst.induct with
  | case1 => rw [dropDuplicatesFirst]
  | case2 r rs ih =>
    rw [dropDuplicatesFirst]
    cases hpr : p r
    · rw [List.find?_cons_of_neg (dropDuplicatesFirst
          (rs.filter (fun s => !(mapKeyEq s r)))) (by simp [hpr]),
        List.find?_cons_of_neg rs (by simp [hpr]), ih]
      refine find?_filter_of_imp rs p _ ?_
      intro x hx
      cases hk : mapKeyEq x r
      · simp
      · have hpx := hp x r hk
        rw [hx, hpr] at hpx
        exact absurd hpx (by simp)
    · rw [List.find?_cons_of_pos _ hpr, List.find?_cons_of_pos _ hpr]

/-- C7: after loading, the mapping table's join key is unique (the kept
rows have pairwise distinct keys), and for every join key the kept row is
exactly the first trimmed input row carrying that key, so every later
duplicate row — with its rollup values — is ignored. -/
theorem C7_mapping_key_unique (tbl : List MapRow) (k1 k2 : String) :
    List.Pairwise (fun a b => mapKeyEq a b = false) (load_category_map tbl) ∧
    (load_category_map tbl).find? (fun m =>
        m.transaction_catg == k1 && m.transaction_catg_desc == k2) =
      (map_trim tbl).find? (fun m =>
        m.transaction_catg == k1 && m.transaction_catg_desc == k2) := by
  constructor
  · exact dropDuplicatesFirst_pairwise (map_trim tbl)
  · refine dropDuplicatesFirst_find? (map_trim tbl) _ ?_
    intro a b hk
    rw [mapKeyEq, Bool.and_eq_true] at hk
    have h1 := eq_of_beq hk.1
    have h2 := eq_of_beq hk.2
    rw [h1, h2]

/-! ## C1: enrichment row count -/

theorem filter_keyMatch_length_le_one (mapping : List MapRow) (t : Txn)
    (h : List.Pairwise (fun a b => mapKeyEq a b = false) mapping) :
    (mapping.filter (txnKeyMatch t)).length ≤ 1 := by
  induction mapping with
  | nil => simp
  | cons m ms ih =>
    rw [List.pairwise_cons] at h
    rw [List.filter_cons]
    cases hm : txnKeyMatch t m
    · simpa using ih h.2
    · simp only [if_true]
      have hnil : ms.filter (txnKeyMatch t) = [] := by
        rw [List.filter_eq_nil_iff]
        intro s hs hps
        have hk : mapKeyEq m s = true := by
          rw [txnKeyMatch, Bool.and_eq_true] at hm hps
          rw [mapKeyEq, Bool.and_eq_true]
          constructor
          · exact beq_of_eq ((eq_of_beq hm.1).trans (eq_of_beq hps.1).symm)
          · exact beq_of_eq ((eq_of_beq hm.2).trans (eq_of_beq hps.2).symm)
        have hcontra := h.1 s hs
        rw [hk] at hcontra
        exact absurd hcontra (by simp)
      rw [hnil]
      simp

theorem merge_left_length (df : List Txn) (mapping : List MapRow)
    (h : List.Pairwise (fun a b => mapKeyEq a b = false) mapping) :
    (merge_left df mapping).length = df.length := by
  induction df with
  | nil => rfl
  | cons t ts ih =>
    simp only [merge_left, List.flatMap_cons] at ih ⊢
    rw [List.length_append, ih, List.length_cons]
    have hone : (match mapping.filter (txnKeyMatch t) with
        | [] => [mergeRow t none]
        | ms => ms.map (fun m => mergeRow t (some m))).length = 1 := by
      have hle := filter_keyMatch_length_le_one mapping t h
      cases hf : mapping.filter (txnKeyMatch t) with
      | nil => rfl
      | cons m rest =>
        rw [hf] at hle
        simp only [List.length_cons] at hle
        have : rest = [] := List.length_eq_zero.mp (by omega)
        subst this
        rfl
    rw [hone]
    omega

theorem enrich_length (df : List Txn) (mapping : List MapRow)
    (h : List.Pairwise (fun a b => mapKeyEq a b = false) mapping) :
    (enrich_with_rollups df mapping).length = df.length := by
  rw [enrich_with_rollups, List.length_map]
  exact merge_left_length df mapping h

theorem merge_left_nil_mapping (df : List Txn) :
    merge_left df [] = df.map (fun t => mergeRow t none) := by
  induction df with
  | nil => rfl
  | cons t ts ih =>
    simp only [merge_left, List.flatMap_cons, List.filter_nil, List.map_cons] at ih ⊢
    rw [List.singleton_append, ih]

/-- C1 (amended): enrichment returns exactly one output row per input
transaction row for every mapping whose join keys are pairwise distinct —
which `load_category_map` guarantees for loader-produced mappings — and
with an empty mapping the row count is preserved and every row's three
rollup columns equal "Unmapped".  (For a mapping with duplicated join
keys the pandas left merge fans out instead; see the counterexample.) -/
theorem C1_enrichment_row_count (df : List Txn) (mapping : List MapRow)
    (h : List.Pairwise (fun a b => mapKeyEq a b = false) mapping) :
    (enrich_with_rollups df mapping).length = df.length ∧
    (enrich_with_rollups df []).length = df.length ∧
    (enrich_with_rollups df []).all (fun r =>
      r.cabinet_supercategory == "Unmapped" && r.agency_rollup == "Unmapped" &&
        r.program_rollup == "Unmapped") = true := by
  refine ⟨enrich_length df mapping h, enrich_length df [] (by simp), ?_⟩
  rw [enrich_with_rollups, merge_left_nil_mapping, List.map_map, List.all_eq_true]
  intro r hr
  rcases List.mem_map.mp hr with ⟨t, ht, rfl⟩
  rfl

/-- C1 witness: the amended theorem at a concrete one-row transaction
table and a concrete key-unique one-row mapping. -/
theorem C1_witness :
    (enrich_with_rollups
        [{ record_date := 3, account_type := "x", transaction_type := "Deposits",
           transaction_catg := "c", transaction_catg_desc := "d",
           transaction_today_amt := 5 }]
        [{ transaction_catg := "c", transaction_catg_desc := "d",
           cabinet_supercategory := some "Cab", agency_rollup := some "Ag",
           program_rollup := some "Pr" }]).length =
      ([{ record_date := 3, account_type := "x", transaction_type := "Deposits",
          transaction_catg := "c", transaction_catg_desc := "d",
          transaction_today_amt := 5 }] : List Txn).length ∧
    (enrich_with_rollups
        [{ record_date := 3, account_type := "x", transaction_type := "Deposits",
           transaction_catg := "c", transaction_catg_desc := "d",
           transaction_today_amt := 5 }] []).length =
      ([{ record_date := 3, account_type := "x", transaction_type := "Deposits",
          transaction_catg := "c", transaction_catg_desc := "d",
          transaction_today_amt := 5 }] : List Txn).length ∧
    (enrich_with_rollups
        [{ record_date := 3, account_type := "x", transaction_type := "Deposits",
           transaction_catg := "c", transaction_catg_desc := "d",
           transaction_today_amt := 5 }] []).all (fun r =>
      r.cabinet_supercategory == "Unmapped" && r.agency_rollup == "Unmapped" &&
        r.program_rollup == "Unmapped") = true :=
  C1_enrichment_row_count _ _ (by simp)

/-- C1 counterexample: with a mapping holding two rows that share one join
key, the left merge fans out: a single matching transaction row produces
two output rows, so the row count is not preserved for arbitrary mappings
with duplicate join keys. -/
theorem C1_counterexample :
    (enrich_with_rollups
        [{ record_date := 3, account_type := "x", transaction_type := "Deposits",
           transaction_catg := "c", transaction_catg_desc := "d",
           transaction_today_amt := 5 }]
        [{ transaction_catg := "c", transaction_catg_desc := "d",
           cabinet_supercategory := some "Cab1", agency_rollup := some "Ag1",
           program_rollup := some "Pr1" },
         { transaction_catg := "c", transaction_catg_desc := "d",
           cabinet_supercategory := some "Cab2", agency_rollup := some "Ag2",
           program_rollup := some "Pr2" }]).length ≠
      ([{ record_date := 3, account_type := "x", transaction_type := "Deposits",
          transaction_catg := "c", transaction_catg_desc := "d",
          transaction_today_amt := 5 }] : List Txn).length := by decide

/-! ## C6: unmapped sentinel for unmatched rows -/

/-- C6: every enriched row whose join key matches no mapping row carries
the literal string "Unmapped" in all three rollup columns — which in
particular is neither null (the columns hold plain strings) nor blank. -/
theorem C6_unmapped_sentinel (df : List Txn) (mapping : List MapRow) :
    ((enrich_with_rollups df mapping).filter (fun r =>
        !(mapping.any (fun m => m.transaction_catg == r.transaction_catg &&
          m.transaction_catg_desc == r.transaction_catg_desc)))).all
      (fun r => r.cabinet_supercategory == "Unmapped" &&
        r.agency_rollup == "Unmapped" && r.program_rollup == "Unmapped" &&
        r.cabinet_supercategory != "" && r.agency_rollup != "" &&
        r.program_rollup != "") = true := by
  rw [List.all_eq_true]
  intro r hr
  have hmem := (List.mem_filter.mp hr).1
  have hno := (List.mem_filter.mp hr).2
  rw [enrich_with_rollups] at hmem
  rcases List.mem_map.mp hmem with ⟨e, he, rfl⟩
  rcases List.mem_flatMap.mp (by rwa [merge_left] at he) with ⟨t, ht, hblock⟩
  have hblock2 : e ∈ (match mapping.filter (txnKeyMatch t) with
      | [] => [mergeRow t none]
      | ms => ms.map (fun m => mergeRow t (some m))) := hblock
  cases hf : mapping.filter (txnKeyMatch t) with
  | nil =>
    rw [hf] at hblock2
    rcases List.mem_singleton.mp hblock2 with rfl
    rfl
  | cons m rest =>
    exfalso
    rw [hf] at hblock2
    rcases List.mem_map.mp hblock2 with ⟨mr, hmr, rfl⟩
    rw [← hf] at hmr
    have h1 := List.mem_of_mem_filter hmr
    have h2 := List.of_mem_filter hmr
    have hany : mapping.any (fun m =>
        m.transaction_catg ==
          (fillUnmapped (mergeRow t (some mr))).transaction_catg &&
        m.transaction_catg_desc ==
          (fillUnmapped (mergeRow t (some mr))).transaction_catg_desc) = true := by
      rw [List.any_eq_true]
      exact ⟨mr, h1, h2⟩
    rw [hany] at hno
    exact absurd hno (by simp)

/-! ## C10: missing mapping cells also become "Unmapped" -/

theorem find?_of_filter_singleton {α : Type} {l : List α} {p : α → Bool} {m : α}
    (h : l.filter p = [m]) : l.find? p = some m := by
  induction l with
  | nil => simp at h
  | cons x xs ih =>
    rw [List.filter_cons] at h
    cases hp : p x
    · rw [hp] at h
      simp only [Bool.false_eq_true, if_false] at h
      rw [List.find?_cons_of_neg xs (by simp [hp])]
      exact ih h
    · rw [hp] at h
      simp only [if_true] at h
      injection h with h1 h2
      rw [List.find?_cons_of_pos xs hp, h1]

/-- C10: with a loader-produced mapping, every enriched row's rollup value
equals the corresponding cell of the unique matching mapping row when that
cell is present, and the literal string "Unmapped" both when the row's key
has no match and when the matching row's cell is missing; in particular
the three rollup columns of the enriched table are never null. -/
theorem C10_missing_cells_unmapped (df : List Txn) (tbl : List MapRow) :
    (enrich_with_rollups df (load_category_map tbl)).all (fun r =>
      (r.cabinet_supercategory ==
        ((((load_category_map tbl).find? (fun m =>
            m.transaction_catg == r.transaction_catg &&
              m.transaction_catg_desc == r.transaction_catg_desc)).bind
          (fun m => m.cabinet_supercategory)).getD "Unmapped")) &&
      (r.agency_rollup ==
        ((((load_category_map tbl).find? (fun m =>
            m.transaction_catg == r.transaction_catg &&
              m.transaction_catg_desc == r.transaction_catg_desc)).bind
          (fun m => m.agency_rollup)).getD "Unmapped")) &&
      (r.program_rollup ==
        ((((load_category_map tbl).find? (fun m =>
            m.transaction_catg == r.transaction_catg &&
              m.transaction_catg_desc == r.transaction_catg_desc)).bind
          (fun m => m.program_rollup)).getD "Unmapped"))) = true := by
  rw [List.all_eq_true]
  intro r hr
  rw [enrich_with_rollups] at hr
  rcases List.mem_map.mp hr with ⟨e, he, rfl⟩
  rcases List.mem_flatMap.mp (by rwa [merge_left] at he) with ⟨t, ht, hblock⟩
  have hblock2 : e ∈ (match (load_category_map tbl).filter (txnKeyMatch t) with
      | [] => [mergeRow t none]
      | ms => ms.map (fun m => mergeRow t (some m))) := hblock
  have hpair : List.Pairwise (fun a b => mapKeyEq a b = false) (load_category_map tbl) :=
    dropDuplicatesFirst_pairwise (map_trim tbl)
  cases hf : (load_category_map tbl).filter (txnKeyMatch t) with
  | nil =>
    rw [hf] at hblock2
    rcases List.mem_singleton.mp hblock2 with rfl
    have hfind : (load_category_map tbl).find? (fun m =>
        m.transaction_catg == t.transaction_catg &&
          m.transaction_catg_desc == t.transaction_catg_desc) = none := by
      rw [List.find?_eq_none]
      intro m hm
      exact List.filter_eq_nil_iff.mp hf m hm
    simp only [fillUnmapped, mergeRow]
    rw [hfind]
    rfl
  | cons m rest =>
    have hle := filter_keyMatch_length_le_one (load_category_map tbl) t hpair
    rw [hf] at hle
    simp only [List.length_cons] at hle
    have hrest : rest = [] := List.length_eq_zero.mp (by omega)
    subst hrest
    rw [hf] at hblock2
    rcases List.mem_map.mp hblock2 with ⟨mr, hmr, rfl⟩
    rcases List.mem_singleton.mp hmr with rfl
    have hfind : (load_category_map tbl).find? (fun mm =>
        mm.transaction_catg == t.transaction_catg &&
          mm.transaction_catg_desc == t.transaction_catg_desc) = some mr :=
      find?_of_filter_singleton hf
    simp only [fillUnmapped, mergeRow]
    rw [hfind]
    simp only [Option.some_bind]
    refine (Bool.and_eq_true _ _).mpr ⟨(Bool.and_eq_true _ _).mpr ⟨?_, ?_⟩, ?_⟩ <;>
      exact beq_self_eq_true _

/-! ## C2: Rank-and-Bucket.  Order lemmas for the sort relation -/

theorem charLt_irrefl (a : Char) : charLt a a = false := by
  simp [charLt]

theorem charLt_trans {a b c : Char} (h1 : charLt a b = true) (h2 : charLt b c = true) :
    charLt a c = true := by
  simp only [charLt, decide_eq_true_eq] at h1 h2 ⊢
  exact Nat.lt_trans h1 h2

theorem charLt_trichot {a b : Char} (h1 : charLt a b = false) (h2 : charLt b a = false) :
    a = b := by
  simp only [charLt, decide_eq_false_iff_not] at h1 h2
  exact Char.eq_of_val_eq (UInt32.ext
    (Nat.le_antisymm (Nat.not_lt.mp h2) (Nat.not_lt.mp h1)))

theorem chLt_irrefl (l : List Char) : chLt l l = false := by
  induction l with
  | nil => rfl
  | cons x xs ih => simp [chLt, charLt_irrefl, ih]

theorem chLt_trans : ∀ {a b c : List Char},
    chLt a b = true → chLt b c = true → chLt a c = true
  | [], _ :: _, _ :: _, _, _ => rfl
  | x :: xs, y :: ys, z :: zs, h1, h2 => by
    rw [chLt, Bool.or_eq_true, Bool.and_eq_true] at h1 h2 ⊢
    rcases h1 with h1 | ⟨h1e, h1r⟩ <;> rcases h2 with h2 | ⟨h2e, h2r⟩
    · exact Or.inl (charLt_trans h1 h2)
    · exact Or.inl ((eq_of_beq h2e) ▸ h1)
    · exact Or.inl ((eq_of_beq h1e) ▸ h2)
    · exact Or.inr ⟨beq_of_eq ((eq_of_beq h1e).trans (eq_of_beq h2e)),
        chLt_trans h1r h2r⟩

theorem chLt_trichot : ∀ {a b : List Char},
    chLt a b = false → chLt b a = false → a = b
  | [], [], _, _ => rfl
  | [], _ :: _, h1, _ => by rw [chLt] at h1; cases h1
  | _ :: _, [], _, h2 => by rw [chLt] at h2; cases h2
  | x :: xs, y :: ys, h1, h2 => by
    rw [chLt, Bool.or_eq_false_iff, Bool.and_eq_false_iff] at h1 h2
    have hxy : x = y := charLt_trichot h1.1 h2.1
    subst hxy
    rcases h1.2 with he | hr
    · rw [beq_self_eq_true] at he; cases he
    · rcases h2.2 with he2 | hr2
      · rw [beq_self_eq_true] at he2; cases he2
      · rw [chLt_trichot hr hr2]

theorem strLt_irrefl (a : String) : strLt a a = false := chLt_irrefl a.data

theorem strLt_trans {a b c : String} (h1 : strLt a b = true) (h2 : strLt b c = true) :
    strLt a c = true := chLt_trans h1 h2

theorem strLt_trichot {a b : String} (h1 : strLt a b = false) (h2 : strLt b a = false) :
    a = b := by
  cases a with
  | mk d1 =>
    cases b with
    | mk d2 => exact congrArg String.mk (chLt_trichot h1 h2)

theorem strLt_neg_trans {x r y : String} (h1 : strLt x r = false) (h2 : strLt y x = false) :
    strLt y r = false := by
  cases hyr : strLt y r
  · rfl
  · exfalso
    cases hxy : strLt x y
    · have he := strLt_trichot hxy h2
      subst he
      rw [hyr] at h1
      cases h1
    · have := strLt_trans hxy hyr
      rw [this] at h1
      cases h1

theorem amt_le_of_pb_false {q x : ProgRow} (h : progBefore q x = false)
    (hag : q.agency_rollup = x.agency_rollup) : ¬ (x.amt < q.amt) := by
  rw [progBefore, Bool.or_eq_false_iff] at h
  have h2 := h.2
  rw [beq_of_eq hag, Bool.true_and] at h2
  simpa using h2

theorem pb_asymm {x r : ProgRow} (h : progBefore x r = true) : progBefore r x = false := by
  cases hrx : progBefore r x
  · rfl
  · exfalso
    rw [progBefore, Bool.or_eq_true, Bool.and_eq_true] at h hrx
    rcases h with h1 | ⟨h2, h3⟩ <;> rcases hrx with h4 | ⟨h5, h6⟩
    · have := strLt_trans h1 h4
      rw [strLt_irrefl] at this
      cases this
    · rw [eq_of_beq h5] at h1
      rw [strLt_irrefl] at h1
      cases h1
    · rw [eq_of_beq h2] at h4
      rw [strLt_irrefl] at h4
      cases h4
    · rw [decide_eq_true_eq] at h3 h6
      exact absurd h6 (lt_asymm h3)

theorem pb_neg_trans {x r y : ProgRow} (h1 : progBefore x r = false)
    (h2 : progBefore y x = false) : progBefore y r = false := by
  cases hyr : progBefore y r
  · rfl
  · exfalso
    rw [progBefore, Bool.or_eq_false_iff] at h1 h2
    rw [progBefore, Bool.or_eq_true] at hyr
    have hsl : strLt y.agency_rollup r.agency_rollup = false :=
      strLt_neg_trans h1.1 h2.1
    rcases hyr with hyr | hyr
    · rw [hyr] at hsl
      cases hsl
    · rw [Bool.and_eq_true] at hyr
      have hya : y.agency_rollup = r.agency_rollup := eq_of_beq hyr.1
      have hrlt : r.amt < y.amt := of_decide_eq_true hyr.2
      have hrx : strLt r.agency_rollup x.agency_rollup = false := by
        rw [← hya]; exact h2.1
      have hxa : x.agency_rollup = r.agency_rollup := strLt_trichot h1.1 hrx
      have hxr : ¬ (r.amt < x.amt) := by
        have := h1.2
        rw [beq_of_eq hxa, Bool.true_and] at this
        simpa using this
      have hyx : ¬ (x.amt < y.amt) := by
        have := h2.2
        rw [beq_of_eq (hya.trans hxa.symm), Bool.true_and] at this
        simpa using this
      have hle1 : y.amt ≤ x.amt := not_lt.mp hyx
      have hle2 : x.amt ≤ r.amt := not_lt.mp hxr
      exact absurd hrlt (not_lt.mpr (hle1.trans hle2))

/-! ## C2: sortedness of the stable sort -/

theorem insertBefore_pairwise (r : ProgRow) (l : List ProgRow)
    (h : List.Pairwise (fun p q => progBefore q p = false) l) :
    List.Pairwise (fun p q => progBefore q p = false) (insertBefore progBefore r l) := by
  induction l with
  | nil => simp [insertBefore]
  | cons x xs ih =>
    rw [List.pairwise_cons] at h
    rw [insertBefore]
    by_cases hx : progBefore x r = true
    · rw [if_pos hx, List.pairwise_cons]
      constructor
      · intro y hy
        rcases (mem_insertBefore _ _ _ _).mp hy with rfl | hy2
        · exact pb_asymm hx
        · exact h.1 y hy2
      · exact ih h.2
    · have hx2 : progBefore x r = false := by
        cases hxv : progBefore x r
        · rfl
        · exact absurd hxv hx
      rw [if_neg hx, List.pairwise_cons]
      constructor
      · intro y hy
        rcases List.mem_cons.mp hy with rfl | hy2
        · exact hx2
        · exact pb_neg_trans hx2 (h.1 y hy2)
      · exact List.pairwise_cons.mpr h

theorem sortProg_sorted (l : List ProgRow) :
    List.Pairwise (fun p q => progBefore q p = false) (sortProg l) := by
  induction l with
  | nil => simp [sortProg, sortBefore]
  | cons r rs ih => exact insertBefore_pairwise r _ ih

theorem insertBefore_eq_cons {r : ProgRow} {m : List ProgRow}
    (h : ∀ y ∈ m, progBefore y r = false) : insertBefore progBefore r m = r :: m := by
  cases m with
  | nil => rfl
  | cons x xs =>
    rw [insertBefore, if_neg]
    rw [h x (List.mem_cons_self x xs)]
    simp

/-! ## C2: filtering one parent out of the sorted table -/

theorem byAgency_nil (a : String) : byAgency a [] = [] := rfl

theorem byAgency_cons (a : String) (x : ProgRow) (l : List ProgRow) :
    byAgency a (x :: l) =
      if x.agency_rollup == a then x :: byAgency a l else byAgency a l := by
  rw [byAgency, byAgency, List.filter_cons]

theorem byAgency_append (a : String) (l1 l2 : List ProgRow) :
    byAgency a (l1 ++ l2) = byAgency a l1 ++ byAgency a l2 := by
  rw [byAgency, byAgency, byAgency, List.filter_append]

theorem byAgency_insertBefore (a : String) (r : ProgRow) (l : List ProgRow)
    (h : List.Pairwise (fun p q => progBefore q p = false) l) :
    byAgency a (insertBefore progBefore r l) =
      if r.agency_rollup == a then insertBefore progBefore r (byAgency a l)
      else byAgency a l := by
  induction l with
  | nil =>
    by_cases hra : (r.agency_rollup == a) = true <;>
      simp [insertBefore, byAgency_cons, byAgency_nil, hra]
  | cons x xs ih =>
    rw [List.pairwise_cons] at h
    rw [insertBefore]
    by_cases hx : progBefore x r = true
    · rw [if_pos hx, byAgency_cons]
      by_cases hxa : (x.agency_rollup == a) = true
      · rw [if_pos hxa, ih h.2, byAgency_cons, if_pos hxa]
        by_cases hra : (r.agency_rollup == a) = true
        · rw [if_pos hra, if_pos hra, insertBefore, if_pos hx]
        · rw [if_neg hra, if_neg hra]
      · rw [if_neg hxa, ih h.2, byAgency_cons, if_neg hxa]
    · have hx2 : progBefore x r = false := by
        cases hxv : progBefore x r
        · rfl
        · exact absurd hxv hx
      rw [if_neg hx, byAgency_cons]
      by_cases hra : (r.agency_rollup == a) = true
      · rw [if_pos hra, if_pos hra]
        have hall : ∀ y ∈ byAgency a (x :: xs), progBefore y r = false := by
          intro y hy
          have hy2 := List.mem_of_mem_filter hy
          rcases List.mem_cons.mp hy2 with rfl | hy3
          · exact hx2
          · exact pb_neg_trans hx2 (h.1 y hy3)
        rw [insertBefore_eq_cons hall]
      · rw [if_neg hra, if_neg hra]

theorem sortProg_cons (r : ProgRow) (rs : List ProgRow) :
    sortProg (r :: rs) = insertBefore progBefore r (sortProg rs) := rfl

theorem byAgency_sortProg (a : String) (l : List ProgRow) :
    byAgency a (sortProg l) = sortProg (byAgency a l) := by
  induction l with
  | nil => rfl
  | cons r rs ih =>
    rw [sortProg_cons]
    rw [byAgency_insertBefore a r (sortProg rs) (sortProg_sorted rs)]
    rw [byAgency_cons]
    by_cases hra : (r.agency_rollup == a) = true
    · rw [if_pos hra, if_pos hra, ih, ← sortProg_cons]
    · rw [if_neg hra, if_neg hra]
      exact ih

/-! ## C2: rank computation -/

theorem enumF_succ_shift {α : Type} (n : Nat) (l : List α) :
    enumF (n + 1) l = (enumF n l).map (fun p => (p.1 + 1, p.2)) := by
  induction l generalizing n with
  | nil => rfl
  | cons x xs ih => rw [enumF, enumF, List.map_cons, ih]

theorem snd_mem_of_mem_enumF {α : Type} {n : Nat} {l : List α} {p : Nat × α}
    (h : p ∈ enumF n l) : p.2 ∈ l := by
  induction l generalizing n with
  | nil => simp [enumF] at h
  | cons x xs ih =>
    rw [enumF] at h
    rcases List.mem_cons.mp h with rfl | h2
    · simp
    · exact List.mem_cons_of_mem x (ih h2)

theorem enumF_map_snd {α : Type} (n : Nat) (l : List α) :
    (enumF n l).map (fun p => p.2) = l := by
  induction l generalizing n with
  | nil => rfl
  | cons x xs ih => rw [enumF, List.map_cons, ih]

theorem withRanks_map_fst (l : List ProgRow) :
    (withRanks l).map (fun p => p.1) = l := by
  rw [withRanks, List.map_map]
  exact enumF_map_snd 0 l

theorem rank_ge_one {l : List ProgRow} {pr : ProgRow × Nat}
    (h : pr ∈ withRanks l) : 1 ≤ pr.2 := by
  rw [withRanks] at h
  rcases List.mem_map.mp h with ⟨p, hp, rfl⟩
  omega

theorem beats_shift (i j : Nat) (r q : ProgRow) :
    beats (i + 1, r) (j + 1, q) = beats (i, r) (j, q) := by
  rw [beats, beats]
  simp only [Nat.add_lt_add_iff_right]

theorem beats_head {x r : ProgRow} {i : Nat} (hrx : progBefore r x = false) :
    beats (i + 1, r) (0, x) = (x.agency_rollup == r.agency_rollup) := by
  rw [beats]
  by_cases hag : (x.agency_rollup == r.agency_rollup) = true
  · rw [hag, Bool.true_and]
    have hag2 : r.agency_rollup = x.agency_rollup := (eq_of_beq hag).symm
    have hle : ¬ (x.amt < r.amt) := amt_le_of_pb_false hrx hag2
    rcases lt_or_eq_of_le (not_lt.mp hle) with hlt | heq
    · simp [hlt]
    · simp [heq]
  · have hag2 : (x.agency_rollup == r.agency_rollup) = false := by
      cases hv : (x.agency_rollup == r.agency_rollup)
      · rfl
      · exact absurd hv hag
    rw [hag2, Bool.false_and]

theorem countP_enumF_shift (s : List ProgRow) (i : Nat) (r : ProgRow) :
    (enumF 1 s).countP (beats (i + 1, r)) = (enumF 0 s).countP (beats (i, r)) := by
  have h1 : enumF 1 s = (enumF 0 s).map (fun p => (p.1 + 1, p.2)) := enumF_succ_shift 0 s
  rw [h1, List.countP_map]
  apply List.countP_congr
  intro p hp
  show beats (i + 1, r) (p.1 + 1, p.2) = true ↔ beats (i, r) p = true
  rw [beats_shift]

theorem withRanks_cons (x : ProgRow) (s : List ProgRow)
    (h : List.Pairwise (fun p q => progBefore q p = false) (x :: s)) :
    withRanks (x :: s) = (x, 1) ::
      (withRanks s).map (fun p =>
        if p.1.agency_rollup == x.agency_rollup then (p.1, p.2 + 1) else p) := by
  rw [List.pairwise_cons] at h
  rw [withRanks, withRanks, enumF, List.map_cons]
  simp only [show (0 + 1 : Nat) = 1 from rfl]
  congr 1
  · have hc : ((0, x) :: enumF 1 s).countP (beats (0, x)) = 0 := by
      rw [List.countP_eq_zero]
      intro q hq
      rcases List.mem_cons.mp hq with h0 | hq2
      · rw [h0]
        simp [beats]
      · have hq3 := snd_mem_of_mem_enumF hq2
        have hxq := h.1 q.2 hq3
        rw [beats]
        simp only [Bool.and_eq_true, Bool.or_eq_true, decide_eq_true_eq, not_and, not_or]
        intro hag
        constructor
        · exact amt_le_of_pb_false hxq (eq_of_beq hag)
        · intro heq
          exact Nat.not_lt_zero q.1
    rw [hc]
  · have h1 : enumF 1 s = (enumF 0 s).map (fun p => (p.1 + 1, p.2)) := enumF_succ_shift 0 s
    nth_rewrite 2 [h1]
    rw [List.map_map, List.map_map]
    apply List.map_congr_left
    intro p hp
    have hmem : p.2 ∈ s := snd_mem_of_mem_enumF hp
    have hpx : progBefore p.2 x = false := h.1 p.2 hmem
    show (p.2, 1 + ((0, x) :: enumF 1 s).countP (beats (p.1 + 1, p.2))) =
      (if (p.2.agency_rollup == x.agency_rollup)
       then ((p.2 : ProgRow), (1 + (enumF 0 s).countP (beats p)) + 1)
       else (p.2, 1 + (enumF 0 s).countP (beats p)))
    rw [List.countP_cons]
    have hcs : (enumF 1 s).countP (beats (p.1 + 1, p.2)) =
        (enumF 0 s).countP (beats p) := countP_enumF_shift s p.1 p.2
    rw [hcs, beats_head hpx]
    by_cases hag : (p.2.agency_rollup == x.agency_rollup) = true
    · have hag2 : (x.agency_rollup == p.2.agency_rollup) = true := by
        rw [string_beq_comm]; exact hag
      rw [if_pos hag2, if_pos hag, Prod.mk.injEq]
      exact ⟨rfl, by omega⟩
    · have hagf : (p.2.agency_rollup == x.agency_rollup) = false := by
        cases hv : (p.2.agency_rollup == x.agency_rollup)
        · rfl
        · exact absurd hv hag
      have hag2 : (x.agency_rollup == p.2.agency_rollup) = false := by
        rw [string_beq_comm]; exact hagf
      rw [if_neg (by simp [hag2]), if_neg (by simp [hagf]), Prod.mk.injEq]
      exact ⟨rfl, by omega⟩

/-! ## C2: the top-N and remainder selections, per parent -/

theorem beq_trans_right {u v w : String} (h1 : (u == w) = true) (h2 : (v == w) = true) :
    (u == v) = true := beq_of_eq ((eq_of_beq h1).trans (eq_of_beq h2).symm)

theorem map_fst_map_bump (x : ProgRow) (M : List (ProgRow × Nat)) :
    (M.map (fun p => if p.1.agency_rollup == x.agency_rollup
        then (p.1, p.2 + 1) else p)).map (fun p => p.1) = M.map (fun p => p.1) := by
  rw [List.map_map]
  apply List.map_congr_left
  intro q hq
  by_cases hb : (q.1.agency_rollup == x.agency_rollup) = true
  · show ((if q.1.agency_rollup == x.agency_rollup
        then (q.1, q.2 + 1) else q) : ProgRow × Nat).1 = q.1
    rw [if_pos hb]
  · show ((if q.1.agency_rollup == x.agency_rollup
        then (q.1, q.2 + 1) else q) : ProgRow × Nat).1 = q.1
    rw [if_neg hb]

theorem top_filter_take (a : String) (s : List ProgRow)
    (h : List.Pairwise (fun p q => progBefore q p = false) s) (n : Nat) :
    ((withRanks s).filter (fun p =>
        p.1.agency_rollup == a && decide (p.2 ≤ n))).map (fun p => p.1) =
      (byAgency a s).take n := by
  induction s generalizing n with
  | nil => simp [withRanks, enumF, byAgency]
  | cons x xs ih =>
    have h2 := (List.pairwise_cons.mp h).2
    rw [withRanks_cons x xs h, List.filter_cons, byAgency_cons]
    by_cases hxa : (x.agency_rollup == a) = true
    · cases n with
      | zero =>
        rw [if_neg (by simp), if_pos hxa, List.take_zero]
        have hnil : (((withRanks xs).map (fun p =>
            if p.1.agency_rollup == x.agency_rollup then (p.1, p.2 + 1) else p)).filter
            (fun p => p.1.agency_rollup == a && decide (p.2 ≤ 0))) = [] := by
          rw [List.filter_eq_nil_iff]
          intro p hp
          rcases List.mem_map.mp hp with ⟨q, hq, rfl⟩
          have hq1 := rank_ge_one hq
          simp only [Bool.and_eq_true, decide_eq_true_eq, not_and]
          intro hagp
          by_cases hb : (q.1.agency_rollup == x.agency_rollup) = true
          · rw [if_pos hb]
            omega
          · rw [if_neg hb]
            omega
        rw [hnil, List.map_nil]
      | succ m =>
        rw [if_pos (by simp [hxa, Nat.succ_le_succ_iff]), List.map_cons,
          List.filter_map, map_fst_map_bump, if_pos hxa, List.take_succ_cons]
        congr 1
        have hfc : (withRanks xs).filter ((fun p => p.1.agency_rollup == a &&
              decide (p.2 ≤ m + 1)) ∘ (fun p =>
              if p.1.agency_rollup == x.agency_rollup then (p.1, p.2 + 1) else p)) =
            (withRanks xs).filter
              (fun p => p.1.agency_rollup == a && decide (p.2 ≤ m)) := by
          apply List.filter_congr
          intro q hq
          by_cases hb : (q.1.agency_rollup == x.agency_rollup) = true
          · show (((if q.1.agency_rollup == x.agency_rollup then (q.1, q.2 + 1)
                else q) : ProgRow × Nat).1.agency_rollup == a &&
                  decide (((if q.1.agency_rollup == x.agency_rollup then (q.1, q.2 + 1)
                    else q) : ProgRow × Nat).2 ≤ m + 1)) =
              (q.1.agency_rollup == a && decide (q.2 ≤ m))
            rw [if_pos hb]
            simp only [Nat.add_le_add_iff_right]
          · show (((if q.1.agency_rollup == x.agency_rollup then (q.1, q.2 + 1)
                else q) : ProgRow × Nat).1.agency_rollup == a &&
                  decide (((if q.1.agency_rollup == x.agency_rollup then (q.1, q.2 + 1)
                    else q) : ProgRow × Nat).2 ≤ m + 1)) =
              (q.1.agency_rollup == a && decide (q.2 ≤ m))
            rw [if_neg hb]
            have hbf : (q.1.agency_rollup == x.agency_rollup) = false := by
              cases hv : (q.1.agency_rollup == x.agency_rollup)
              · rfl
              · exact absurd hv hb
            have hqa : (q.1.agency_rollup == a) = false := by
              cases hv : (q.1.agency_rollup == a)
              · rfl
              · rw [beq_trans_right hv hxa] at hbf
                cases hbf
            rw [hqa, Bool.false_and, Bool.false_and]
        rw [hfc, ih h2 m]
    · have hxaf : (x.agency_rollup == a) = false := by
        cases hv : (x.agency_rollup == a)
        · rfl
        · exact absurd hv hxa
      rw [if_neg (by simp [hxaf]), if_neg hxa, List.filter_map, map_fst_map_bump]
      have hfc : (withRanks xs).filter ((fun p => p.1.agency_rollup == a &&
            decide (p.2 ≤ n)) ∘ (fun p =>
            if p.1.agency_rollup == x.agency_rollup then (p.1, p.2 + 1) else p)) =
          (withRanks xs).filter
            (fun p => p.1.agency_rollup == a && decide (p.2 ≤ n)) := by
        apply List.filter_congr
        intro q hq
        by_cases hb : (q.1.agency_rollup == x.agency_rollup) = true
        · show (((if q.1.agency_rollup == x.agency_rollup then (q.1, q.2 + 1)
              else q) : ProgRow × Nat).1.agency_rollup == a &&
                decide (((if q.1.agency_rollup == x.agency_rollup then (q.1, q.2 + 1)
                  else q) : ProgRow × Nat).2 ≤ n)) =
            (q.1.agency_rollup == a && decide (q.2 ≤ n))
          rw [if_pos hb]
          have hqa : (q.1.agency_rollup == a) = false := by
            cases hv : (q.1.agency_rollup == a)
            · rfl
            · have hxat : (x.agency_rollup == a) = true :=
                beq_of_eq ((eq_of_beq hb).symm.trans (eq_of_beq hv))
              rw [hxat] at hxaf
              cases hxaf
          rw [hqa, Bool.false_and, Bool.false_and]
        · show (((if q.1.agency_rollup == x.agency_rollup then (q.1, q.2 + 1)
              else q) : ProgRow × Nat).1.agency_rollup == a &&
                decide (((if q.1.agency_rollup == x.agency_rollup then (q.1, q.2 + 1)
                  else q) : ProgRow × Nat).2 ≤ n)) =
            (q.1.agency_rollup == a && decide (q.2 ≤ n))
          rw [if_neg hb]
      rw [hfc, ih h2 n]

theorem other_filter_drop (a : String) (s : List ProgRow)
    (h : List.Pairwise (fun p q => progBefore q p = false) s) (n : Nat) :
    ((withRanks s).filter (fun p =>
        p.1.agency_rollup == a && decide (n < p.2))).map (fun p => p.1) =
      (byAgency a s).drop n := by
  induction s generalizing n with
  | nil => simp [withRanks, enumF, byAgency]
  | cons x xs ih =>
    have h2 := (List.pairwise_cons.mp h).2
    rw [withRanks_cons x xs h, List.filter_cons, byAgency_cons]
    by_cases hxa : (x.agency_rollup == a) = true
    · cases n with
      | zero =>
        rw [if_pos (by simp [hxa]), List.map_cons, List.filter_map, map_fst_map_bump,
          if_pos hxa, List.drop_zero]
        congr 1
        have hfc : (withRanks xs).filter ((fun p => p.1.agency_rollup == a &&
              decide (0 < p.2)) ∘ (fun p =>
              if p.1.agency_rollup == x.agency_rollup then (p.1, p.2 + 1) else p)) =
            (withRanks xs).filter
              (fun p => p.1.agency_rollup == a && decide (0 < p.2)) := by
          apply List.filter_congr
          intro q hq
          have hq1 := rank_ge_one hq
          by_cases hb : (q.1.agency_rollup == x.agency_rollup) = true
          · show (((if q.1.agency_rollup == x.agency_rollup then (q.1, q.2 + 1)
                else q) : ProgRow × Nat).1.agency_rollup == a &&
                  decide (0 < ((if q.1.agency_rollup == x.agency_rollup then (q.1, q.2 + 1)
                    else q) : ProgRow × Nat).2)) =
              (q.1.agency_rollup == a && decide (0 < q.2))
            rw [if_pos hb]
            have e1 : decide (0 < q.2 + 1) = true := by simp
            have e2 : decide (0 < q.2) = true := by
              simp only [decide_eq_true_eq]
              omega
            rw [e1, e2]
          · show (((if q.1.agency_rollup == x.agency_rollup then (q.1, q.2 + 1)
                else q) : ProgRow × Nat).1.agency_rollup == a &&
                  decide (0 < ((if q.1.agency_rollup == x.agency_rollup then (q.1, q.2 + 1)
                    else q) : ProgRow × Nat).2)) =
              (q.1.agency_rollup == a && decide (0 < q.2))
            rw [if_neg hb]
        rw [hfc, ih h2 0, List.drop_zero]
      | succ m =>
        rw [if_neg (by simp), if_pos hxa, List.drop_succ_cons, List.filter_map,
          map_fst_map_bump]
        have hfc : (withRanks xs).filter ((fun p => p.1.agency_rollup == a &&
              decide (m + 1 < p.2)) ∘ (fun p =>
              if p.1.agency_rollup == x.agency_rollup then (p.1, p.2 + 1) else p)) =
            (withRanks xs).filter
              (fun p => p.1.agency_rollup == a && decide (m < p.2)) := by
          apply List.filter_congr
          intro q hq
          by_cases hb : (q.1.agency_rollup == x.agency_rollup) = true
          · show (((if q.1.agency_rollup == x.agency_rollup then (q.1, q.2 + 1)
                else q) : ProgRow × Nat).1.agency_rollup == a &&
                  decide (m + 1 < ((if q.1.agency_rollup == x.agency_rollup then (q.1, q.2 + 1)
                    else q) : ProgRow × Nat).2)) =
              (q.1.agency_rollup == a && decide (m < q.2))
            rw [if_pos hb]
            simp only [Nat.add_lt_add_iff_right]
          · show (((if q.1.agency_rollup == x.agency_rollup then (q.1, q.2 + 1)
                else q) : ProgRow × Nat).1.agency_rollup == a &&
                  decide (m + 1 < ((if q.1.agency_rollup == x.agency_rollup then (q.1, q.2 + 1)
                    else q) : ProgRow × Nat).2)) =
              (q.1.agency_rollup == a && decide (m < q.2))
            rw [if_neg hb]
            have hbf : (q.1.agency_rollup == x.agency_rollup) = false := by
              cases hv : (q.1.agency_rollup == x.agency_rollup)
              · rfl
              · exact absurd hv hb
            have hqa : (q.1.agency_rollup == a) = false := by
              cases hv : (q.1.agency_rollup == a)
              · rfl
              · rw [beq_trans_right hv hxa] at hbf
                cases hbf
            rw [hqa, Bool.false_and, Bool.false_and]
        rw [hfc, ih h2 m]
    · have hxaf : (x.agency_rollup == a) = false := by
        cases hv : (x.agency_rollup == a)
        · rfl
        · exact absurd hv hxa
      rw [if_neg (by simp [hxaf]), if_neg hxa, List.filter_map, map_fst_map_bump]
      have hfc : (withRanks xs).filter ((fun p => p.1.agency_rollup == a &&
            decide (n < p.2)) ∘ (fun p =>
            if p.1.agency_rollup == x.agency_rollup then (p.1, p.2 + 1) else p)) =
          (withRanks xs).filter
            (fun p => p.1.agency_rollup == a && decide (n < p.2)) := by
        apply List.filter_congr
        intro q hq
        by_cases hb : (q.1.agency_rollup == x.agency_rollup) = true
        · show (((if q.1.agency_rollup == x.agency_rollup then (q.1, q.2 + 1)
              else q) : ProgRow × Nat).1.agency_rollup == a &&
                decide (n < ((if q.1.agency_rollup == x.agency_rollup then (q.1, q.2 + 1)
                  else q) : ProgRow × Nat).2)) =
            (q.1.agency_rollup == a && decide (n < q.2))
          rw [if_pos hb]
          have hqa : (q.1.agency_rollup == a) = false := by
            cases hv : (q.1.agency_rollup == a)
            · rfl
            · have hxat : (x.agency_rollup == a) = true :=
                beq_of_eq ((eq_of_beq hb).symm.trans (eq_of_beq hv))
              rw [hxat] at hxaf
              cases hxaf
          rw [hqa, Bool.false_and, Bool.false_and]
        · show (((if q.1.agency_rollup == x.agency_rollup then (q.1, q.2 + 1)
              else q) : ProgRow × Nat).1.agency_rollup == a &&
                decide (n < ((if q.1.agency_rollup == x.agency_rollup then (q.1, q.2 + 1)
                  else q) : ProgRow × Nat).2)) =
            (q.1.agency_rollup == a && decide (n < q.2))
          rw [if_neg hb]
      rw [hfc, ih h2 n]

/-! ## C2: the "Other" bucket, per parent -/

theorem byAgency_rank_filter (a : String) (W : List (ProgRow × Nat))
    (c : ProgRow × Nat → Bool) :
    byAgency a ((W.filter c).map (fun p => p.1)) =
      (W.filter (fun p => p.1.agency_rollup == a && c p)).map (fun p => p.1) := by
  rw [byAgency, List.filter_map, List.filter_filter]
  exact congrArg _ (List.filter_congr (fun p hp => rfl))

theorem byAgency_map_mk (a : String) (l : List ProgRow) (M : List String) :
    byAgency a (M.map (fun b =>
      ({ agency_rollup := b, program_rollup := otherLabel,
         amt := ((l.filter (fun r => r.agency_rollup == b)).map
           (fun r => r.amt)).sum } : ProgRow))) =
    (M.filter (fun y => y == a)).map (fun b =>
      ({ agency_rollup := b, program_rollup := otherLabel,
         amt := ((l.filter (fun r => r.agency_rollup == b)).map
           (fun r => r.amt)).sum } : ProgRow)) := by
  rw [byAgency, List.filter_map]
  exact congrArg _ (List.filter_congr (fun y hy => rfl))

theorem byAgency_otherGroup (a : String) (l : List ProgRow) :
    byAgency a (otherGroup l) =
      if (l.map (fun r => r.agency_rollup)).contains a
      then [{ agency_rollup := a, program_rollup := otherLabel,
              amt := ((byAgency a l).map (fun r => r.amt)).sum }]
      else [] := by
  rw [otherGroup, byAgency_map_mk, dedupFirst_filter_self]
  by_cases hc : ((l.map (fun r => r.agency_rollup)).contains a) = true
  · rw [if_pos hc, if_pos hc, List.map_cons, List.map_nil]
    rfl
  · rw [if_neg hc, if_neg hc, List.map_nil]

theorem contains_agency_iff (l : List ProgRow) (a : String) :
    ((l.map (fun r => r.agency_rollup)).contains a = true) ↔ byAgency a l ≠ [] := by
  rw [contains_iff_memS, byAgency]
  constructor
  · intro hm hnil
    rcases List.mem_map.mp hm with ⟨r, hr, hra⟩
    exact (List.filter_eq_nil_iff.mp hnil r hr) (beq_of_eq hra)
  · intro hne
    cases hb : l.filter (fun r => r.agency_rollup == a) with
    | nil => exact absurd hb hne
    | cons r rs =>
      have hr : r ∈ l.filter (fun r => r.agency_rollup == a) := by
        rw [hb]; exact List.mem_cons_self r rs
      have hpr : (r.agency_rollup == a) = true := (List.mem_filter.mp hr).2
      exact List.mem_map.mpr ⟨r, List.mem_of_mem_filter hr, eq_of_beq hpr⟩

/-- C2: Rank-and-Bucket, characterized independently for each parent: when
a parent has at most n children, all of its children are kept (in
descending-sum order, ties in input order) and no "Other" row is added for
it; when it has more than n, exactly its n top-ranked children are kept and
all remaining children are replaced by the single row labeled
"Other (all remaining programs)" whose value is the sum of their sums. -/
theorem C2_rank_and_bucket (progIn : List ProgRow) (n : Nat) (a : String) :
    byAgency a (bucketTopN n progIn) =
      (if (sortProg (byAgency a progIn)).length ≤ n
       then sortProg (byAgency a progIn)
       else (sortProg (byAgency a progIn)).take n ++
         [{ agency_rollup := a, program_rollup := otherLabel,
            amt := (((sortProg (byAgency a progIn)).drop n).map
              (fun r => r.amt)).sum }]) := by
  have hs := sortProg_sorted progIn
  have htop : byAgency a (((withRanks (sortProg progIn)).filter
      (fun p => decide (p.2 ≤ n))).map (fun p => p.1)) =
      (sortProg (byAgency a progIn)).take n := by
    rw [byAgency_rank_filter, ← byAgency_sortProg]
    exact top_filter_take a (sortProg progIn) hs n
  have hoth : byAgency a (((withRanks (sortProg progIn)).filter
      (fun p => decide (n < p.2))).map (fun p => p.1)) =
      (sortProg (byAgency a progIn)).drop n := by
    rw [byAgency_rank_filter, ← byAgency_sortProg]
    exact other_filter_drop a (sortProg progIn) hs n
  simp only [bucketTopN]
  by_cases hemp : ((((withRanks (sortProg progIn)).filter
      (fun p => decide (n < p.2))).map (fun p => p.1)).isEmpty) = true
  · rw [if_pos hemp, htop]
    have hO : (((withRanks (sortProg progIn)).filter
        (fun p => decide (n < p.2))).map (fun p => p.1)) = [] :=
      List.isEmpty_iff.mp hemp
    have hdrop : (sortProg (byAgency a progIn)).drop n = [] := by
      rw [← hoth, hO]
      rfl
    have hlen : (sortProg (byAgency a progIn)).length ≤ n :=
      List.drop_eq_nil_iff.mp hdrop
    rw [if_pos hlen, List.take_of_length_le hlen]
  · rw [if_neg hemp, byAgency_append, htop, byAgency_otherGroup]
    by_cases hca : (((((withRanks (sortProg progIn)).filter
        (fun p => decide (n < p.2))).map (fun p => p.1)).map
          (fun r => r.agency_rollup)).contains a) = true
    · rw [if_pos hca]
      have hne : byAgency a (((withRanks (sortProg progIn)).filter
          (fun p => decide (n < p.2))).map (fun p => p.1)) ≠ [] :=
        (contains_agency_iff _ a).mp hca
      rw [hoth] at hne
      have hlen : ¬ ((sortProg (byAgency a progIn)).length ≤ n) := by
        intro hle
        exact hne (List.drop_eq_nil_iff.mpr hle)
      rw [if_neg hlen, hoth]
    · rw [if_neg hca]
      have hnil : byAgency a (((withRanks (sortProg progIn)).filter
          (fun p => decide (n < p.2))).map (fun p => p.1)) = [] := by
        by_contra hne
        exact hca ((contains_agency_iff _ a).mpr hne)
      rw [hoth] at hnil
      have hlen : (sortProg (byAgency a progIn)).length ≤ n :=
        List.drop_eq_nil_iff.mp hnil
      rw [if_pos hlen, List.append_nil, List.take_of_length_le hlen]

example :
    bucketTopN 2 [⟨"A", "p1", 10⟩, ⟨"A", "p2", 7⟩, ⟨"A", "p3", 5⟩,
        ⟨"A", "p4", 3⟩, ⟨"A", "p5", 1⟩] =
      [⟨"A", "p1", 10⟩, ⟨"A", "p2", 7⟩,
       ⟨"A", "Other (all remaining programs)", 9⟩] := by decide

example :
    bucketTopN 5 [⟨"A", "p1", 10⟩, ⟨"A", "p2", 7⟩] =
      [⟨"A", "p1", 10⟩, ⟨"A", "p2", 7⟩] := by decide

example :
    byAgency "B" (bucketTopN 1 [⟨"B", "q1", 4⟩, ⟨"A", "p1", 10⟩, ⟨"B", "q2", 6⟩]) =
      [⟨"B", "q2", 6⟩, ⟨"B", "Other (all remaining programs)", 4⟩] := by decide

end RatComputable
